import Mathlib

/-!
Verification development for a Mandelbrot-set renderer.

The program consists of three components:
* `MandelbrotSet` — the escape-time engine (`escape_count`, `stability`,
  membership test);
* `Viewport` — the mapping from image pixel coordinates to points of the
  complex plane (`scale`, `height`, `offset`, pixel iteration);
* `paint` — the renderer, writing one palette colour per pixel into the
  image surface.

Complex numbers are embedded as pairs of rationals (`Cplx`); the source's
floating-point magnitude comparison `abs(z) > escape_radius` is embedded as
the decidable test `absGT`, proved equivalent to `(r : ℝ) < cabs z` in
`absGT_eq_true_iff`, where `cabs` is the real magnitude `√(re² + im²)`.
The bounded `for` loop of `escape_count` is embedded as the fuel recursion
`escapeGo`, whose fuel is exactly the iteration budget `max_iterations`.
-/

/-- A complex number with rational real and imaginary components. -/
structure Cplx where
  re : ℚ
  im : ℚ
deriving DecidableEq

instance : Add Cplx :=
  ⟨fun a b => ⟨a.re + b.re, a.im + b.im⟩⟩

instance : Mul Cplx :=
  ⟨fun a b => ⟨a.re * b.re - a.im * b.im, a.re * b.im + a.im * b.re⟩⟩

instance : HMul Cplx ℚ Cplx :=
  ⟨fun a q => ⟨a.re * q, a.im * q⟩⟩

instance : HDiv Cplx ℚ Cplx :=
  ⟨fun a q => ⟨a.re / q, a.im / q⟩⟩

/-- Squared magnitude of a complex number. -/
def Cplx.normSq (z : Cplx) : ℚ :=
  z.re ^ 2 + z.im ^ 2

/-- Real magnitude of a complex number, the value Python computes as
`abs(z)`. -/
noncomputable def cabs (z : Cplx) : ℝ :=
  Real.sqrt (z.normSq : ℝ)

/-- Decidable embedding of the source comparison `abs(z) > escape_radius`:
true when the radius is negative (a real magnitude always exceeds a
negative bound) or when the squared magnitude exceeds the squared radius.
`absGT_eq_true_iff` proves this equal to `(r : ℝ) < cabs z`. -/
def absGT (z : Cplx) (r : ℚ) : Bool :=
  decide (r < 0) || decide (r ^ 2 < z.normSq)

theorem cabs_nonneg (z : Cplx) : 0 ≤ cabs z :=
  Real.sqrt_nonneg _

theorem normSq_nonneg (z : Cplx) : 0 ≤ z.normSq := by
  have h1 : 0 ≤ z.re ^ 2 := sq_nonneg _
  have h2 : 0 ≤ z.im ^ 2 := sq_nonneg _
  simpa [Cplx.normSq] using add_nonneg h1 h2

theorem absGT_eq_true_iff (z : Cplx) (r : ℚ) :
    absGT z r = true ↔ (r : ℝ) < cabs z := by
  rw [absGT, Bool.or_eq_true, decide_eq_true_iff, decide_eq_true_iff]
  constructor
  · rintro (hr | hlt)
    · have : (r : ℝ) < 0 := by exact_mod_cast hr
      exact lt_of_lt_of_le this (cabs_nonneg z)
    · rcases lt_or_le r 0 with hr | hr
      · have : (r : ℝ) < 0 := by exact_mod_cast hr
        exact lt_of_lt_of_le this (cabs_nonneg z)
      · have hr0 : (0 : ℝ) ≤ (r : ℝ) := by exact_mod_cast hr
        refine (Real.lt_sqrt hr0).mpr ?_
        exact_mod_cast hlt
  · intro h
    rcases lt_or_le r 0 with hr | hr
    · exact Or.inl hr
    · right
      have hr0 : (0 : ℝ) ≤ (r : ℝ) := by exact_mod_cast hr
      have := (Real.lt_sqrt hr0).mp h
      have h2 : ((r ^ 2 : ℚ) : ℝ) < ((z.normSq : ℚ) : ℝ) := by push_cast; exact_mod_cast this
      exact_mod_cast h2

/-- The escape-time engine: iteration budget and divergence threshold.
The Python class is a plain dataclass — the constructor stores the fields
unchanged and performs no validation. -/
structure MandelbrotSet where
  max_iterations : ℕ
  escape_radius : ℚ
deriving DecidableEq

/-- One run of the bounded escape loop: starting from accumulator `z` at
iteration index `iteration` with `fuel` loop iterations left, compute
`z1 = z² + c` each step and return `some (iteration, z1)` at the first step
whose iterate exceeds the escape radius, `none` if fuel runs out. -/
def MandelbrotSet.escapeGo (m : MandelbrotSet) (c z : Cplx)
    (iteration fuel : ℕ) : Option (ℕ × Cplx) :=
  match fuel with
  | 0 => none
  | fuel + 1 =>
    let z1 := z * z + c
    if absGT z1 m.escape_radius then some (iteration, z1)
    else m.escapeGo c z1 (iteration + 1) fuel

/-- The escape loop run from `z = 0` with fuel `max_iterations`: the
iteration index and iterate at the first divergence detection, or `none`
when the loop completes. -/
def MandelbrotSet.escapeData (m : MandelbrotSet) (c : Cplx) :
    Option (ℕ × Cplx) :=
  m.escapeGo c ⟨0, 0⟩ 0 m.max_iterations

/-- Unsmoothed escape count: the iteration index at which divergence was
detected, or `max_iterations` when the loop completes. -/
def MandelbrotSet.escape_count (m : MandelbrotSet) (c : Cplx) : ℕ :=
  match m.escapeData c with
  | some (iteration, _) => iteration
  | none => m.max_iterations

/-- Real-valued escape count covering both branches of the source: with
`smooth` the continuous value `iteration + 1 - log(log|z|)/log 2` at the
detected iterate `z`, without it the integer iteration index; and
`max_iterations` when the loop completes. -/
noncomputable def MandelbrotSet.escape_countR (m : MandelbrotSet) (c : Cplx)
    (smooth : Bool) : ℝ :=
  match m.escapeData c with
  | some (iteration, z) =>
    if smooth then
      (iteration : ℝ) + 1 - Real.log (Real.log (cabs z)) / Real.log 2
    else (iteration : ℝ)
  | none => (m.max_iterations : ℝ)

/-- Stability: the escape count divided by `max_iterations`, clamped into
[0, 1] when `clamp` is set. -/
noncomputable def MandelbrotSet.stability (m : MandelbrotSet) (c : Cplx)
    (smooth clamp : Bool) : ℝ :=
  let value := m.escape_countR c smooth / (m.max_iterations : ℝ)
  if clamp then max 0 (min value 1) else value

/-- Membership test `c in MandelbrotSet`: `stability(c) == 1` with the
source's default arguments `smooth=False`, `clamp=True`. -/
noncomputable def MandelbrotSet.contains (m : MandelbrotSet) (c : Cplx) : Prop :=
  m.stability c false true = 1

/-- A colour: a triple of channel intensities. -/
abbrev Color := ℕ × ℕ × ℕ

/-- The external image surface: fixed dimensions and a pixel grid,
addressed by integer coordinates. -/
structure Image where
  width : ℕ
  height : ℕ
  data : ℕ → ℕ → Color

/-- Read the pixel at `(x, y)`. -/
def Image.getpixel (img : Image) (x y : ℕ) : Color :=
  img.data x y

/-- Write `color` at `(x, y)`, leaving every other pixel and the
dimensions unchanged. -/
def Image.putpixel (img : Image) (x y : ℕ) (color : Color) : Image :=
  { img with data := fun a b => if a = x ∧ b = y then color else img.data a b }

/-- The viewport: a borrowed image surface, the complex-plane point mapped
to the image centre, and the horizontal complex-plane span. The Python
class is a plain dataclass storing the three fields unvalidated. -/
structure Viewport where
  image : Image
  center : Cplx
  width : ℚ

/-- Derived scale: complex-plane units per pixel. -/
def Viewport.scale (vp : Viewport) : ℚ :=
  vp.width / vp.image.width

/-- Derived vertical complex-plane span. -/
def Viewport.height (vp : Viewport) : ℚ :=
  vp.scale * vp.image.height

/-- Derived top-left complex-plane coordinate. -/
def Viewport.offset (vp : Viewport) : Cplx :=
  vp.center + (⟨-vp.width, vp.height⟩ : Cplx) / (2 : ℚ)

/-- The pixel-to-complex-plane conversion of the source's
`Pixel.__complex__`: `complex(x, -y) * scale + offset`. -/
def Viewport.pixelToC (vp : Viewport) (x y : ℕ) : Cplx :=
  (⟨(x : ℚ), -(y : ℚ)⟩ : Cplx) * vp.scale + vp.offset

/-- Row-major enumeration of a `w × h` grid: outer loop over rows `y`,
inner loop over columns `x`. -/
def rowMajor (w h : ℕ) : List (ℕ × ℕ) :=
  (List.range h).flatMap fun y => (List.range w).map fun x => (x, y)

/-- The pixel-coordinate sequence produced by the source's
`Viewport.__iter__`. -/
def Viewport.pixels (vp : Viewport) : List (ℕ × ℕ) :=
  rowMajor vp.image.width vp.image.height

/-- Python truncation toward zero, the conversion `int()` applies to a
float. -/
noncomputable def pytrunc (x : ℝ) : ℤ :=
  if x < 0 then -(Int.floor (-x)) else Int.floor x

/-- The palette band index computed by `paint`: Python
`count // 8 % len(palette)`, i.e. floor division by 8 followed by the
remainder with sign of the (positive) divisor. -/
def bandIndex (count : ℤ) (len : ℕ) : ℤ :=
  (count.fdiv 8).emod (len : ℤ)

/-- The colour `paint` writes at pixel `(x, y)`:
`palette[int(escape_count(complex(pixel), smooth)) // 8 % len(palette)]`. -/
noncomputable def pixelColor (m : MandelbrotSet) (vp : Viewport)
    (palette : List Color) (smooth : Bool) (x y : ℕ) : Color :=
  palette.getD
    (bandIndex (pytrunc (m.escape_countR (vp.pixelToC x y) smooth))
      palette.length).toNat
    (0, 0, 0)

/-- The renderer: for every pixel of the viewport in row-major order,
write the palette colour of its escape count into the image surface. -/
noncomputable def paint (m : MandelbrotSet) (vp : Viewport)
    (palette : List Color) (smooth : Bool) : Image :=
  vp.pixels.foldl
    (fun img p => img.putpixel p.1 p.2 (pixelColor m vp palette smooth p.1 p.2))
    vp.image

/-- The whole mutable state `paint` runs in: the engine, the viewport (with
its image surface) and the palette. -/
structure World where
  engine : MandelbrotSet
  viewport : Viewport
  palette : List Color

/-- Running `paint` on a `World`: the image surface is replaced by the
painted one; engine, viewport geometry and palette are carried over. -/
noncomputable def paintWorld (w : World) (smooth : Bool) : World :=
  ⟨w.engine,
   ⟨paint w.engine w.viewport w.palette smooth, w.viewport.center,
    w.viewport.width⟩,
   w.palette⟩

/-- A concrete 4 by 4 viewport centred at the origin with width 4, the
spec's concrete coordinate-mapping scenario. -/
def vp4 : Viewport :=
  ⟨⟨4, 4, fun _ _ => (0, 0, 0)⟩, ⟨0, 0⟩, 4⟩

/-- A concrete 2 by 2 viewport, used to exercise the pixel sequence. -/
def vp22 : Viewport :=
  ⟨⟨2, 2, fun _ _ => (0, 0, 0)⟩, ⟨0, 0⟩, 1⟩

/-- A concrete world with a 1 by 1 image, used to exercise the renderer's
frame conditions. -/
def W0 : World :=
  ⟨⟨1, 2⟩, ⟨⟨1, 1, fun _ _ => (0, 0, 0)⟩, ⟨0, 0⟩, 1⟩, [(9, 9, 9)]⟩

/-- A concrete engine with budget 1 and radius 2, whose smooth escape
count at `c = 10` lies strictly between -1 and 0. -/
def mTen : MandelbrotSet :=
  ⟨1, 2⟩

/-- A 1 by 1 viewport whose single pixel (0, 0) maps exactly to the
complex number 10: scale = 2, offset = (11 - i) + (-1 + i) = 10. -/
def vpTen : Viewport :=
  ⟨⟨1, 1, fun _ _ => (0, 0, 0)⟩, ⟨11, -1⟩, 2⟩

/-- A palette of 16 pairwise distinct colours. -/
def pal16 : List Color :=
  (List.range 16).map fun j => (j, 0, 0)

theorem escapeGo_some_absGT (m : MandelbrotSet) (c : Cplx) :
    ∀ (fuel : ℕ) (z : Cplx) (iteration n : ℕ) (w : Cplx),
      m.escapeGo c z iteration fuel = some (n, w) →
      absGT w m.escape_radius = true := by
  intro fuel
  induction fuel with
  | zero => intro z iteration n w h; simp [MandelbrotSet.escapeGo] at h
  | succ fuel ih =>
    intro z iteration n w h
    rw [MandelbrotSet.escapeGo] at h
    by_cases hb : absGT (z * z + c) m.escape_radius
    · simp [hb] at h
      rcases h with ⟨h1, h2⟩
      rw [← h2]
      exact hb
    · simp [hb] at h
      exact ih _ _ _ _ h

theorem escapeGo_some_lt (m : MandelbrotSet) (c : Cplx) :
    ∀ (fuel : ℕ) (z : Cplx) (iteration n : ℕ) (w : Cplx),
      m.escapeGo c z iteration fuel = some (n, w) →
      n < iteration + fuel := by
  intro fuel
  induction fuel with
  | zero => intro z iteration n w h; simp [MandelbrotSet.escapeGo] at h
  | succ fuel ih =>
    intro z iteration n w h
    rw [MandelbrotSet.escapeGo] at h
    by_cases hb : absGT (z * z + c) m.escape_radius
    · simp [hb] at h
      omega
    · simp [hb] at h
      have := ih _ _ _ _ h
      omega

theorem escape_count_le (m : MandelbrotSet) (c : Cplx) :
    m.escape_count c ≤ m.max_iterations := by
  rw [MandelbrotSet.escape_count]
  rcases hd : m.escapeData c with _ | ⟨n, w⟩
  · simp
  · simp only []
    have := escapeGo_some_lt m c m.max_iterations ⟨0, 0⟩ 0 n w hd
    omega

theorem escape_countR_false (m : MandelbrotSet) (c : Cplx) :
    m.escape_countR c false = (m.escape_count c : ℝ) := by
  rw [MandelbrotSet.escape_countR, MandelbrotSet.escape_count]
  rcases m.escapeData c with _ | ⟨n, w⟩ <;> simp

theorem rowMajor_succ (w h : ℕ) :
    rowMajor w (h + 1) = rowMajor w h ++ (List.range w).map (fun x => (x, h)) := by
  simp [rowMajor, List.range_succ]

theorem rowMajor_length (w h : ℕ) : (rowMajor w h).length = w * h := by
  induction h with
  | zero => simp [rowMajor]
  | succ h ih =>
    rw [rowMajor_succ, List.length_append, ih, List.length_map,
      List.length_range, Nat.mul_succ]

theorem rowMajor_getElem (w h x y : ℕ) (hx : x < w) (hy : y < h) :
    (rowMajor w h)[y * w + x]? = some (x, y) := by
  induction h with
  | zero => omega
  | succ h ih =>
    rw [rowMajor_succ]
    rcases Nat.lt_or_ge y h with hy2 | hy2
    · have hidx : y * w + x < (rowMajor w h).length := by
        rw [rowMajor_length]
        have h1 : y * w + x < (y + 1) * w := by
          rw [Nat.succ_mul]; omega
        have h2 : (y + 1) * w ≤ h * w := Nat.mul_le_mul_right w hy2
        rw [Nat.mul_comm w h]; omega
      rw [List.getElem?_append_left hidx]
      exact ih hy2
    · have hyh : y = h := by omega
      subst hyh
      have hlen : (rowMajor w y).length ≤ y * w + x := by
        rw [rowMajor_length, Nat.mul_comm]; omega
      rw [List.getElem?_append_right hlen, rowMajor_length]
      have : y * w + x - w * y = x := by rw [Nat.mul_comm]; omega
      rw [this, List.getElem?_map, List.getElem?_range hx]
      rfl

theorem rowMajor_mem (w h : ℕ) (p : ℕ × ℕ) :
    p ∈ rowMajor w h ↔ p.1 < w ∧ p.2 < h := by
  rcases p with ⟨a, b⟩
  simp only [rowMajor, List.mem_flatMap, List.mem_map, List.mem_range]
  constructor
  · rintro ⟨y, hy, x, hx, hxy⟩
    rcases Prod.mk.injEq .. ▸ hxy with ⟨h1, h2⟩
    exact ⟨h1 ▸ hx, h2 ▸ hy⟩
  · rintro ⟨h1, h2⟩
    exact ⟨b, h2, a, h1, rfl⟩

theorem rowMajor_nodup (w h : ℕ) : (rowMajor w h).Nodup := by
  induction h with
  | zero => simp [rowMajor]
  | succ h ih =>
    rw [rowMajor_succ]
    refine List.Nodup.append ih ?_ ?_
    · refine List.Nodup.map ?_ (List.nodup_range w)
      intro a b hab
      simpa using congrArg Prod.fst hab
    · intro p hp1 hp2
      have h1 := (rowMajor_mem w h p).mp hp1
      rcases List.mem_map.mp hp2 with ⟨x, _, hx⟩
      have : p.2 = h := by rw [← hx]
      omega

theorem foldl_putpixel_getpixel (f : ℕ → ℕ → Color) :
    ∀ (l : List (ℕ × ℕ)) (img : Image) (x y : ℕ),
      (l.foldl (fun im p => im.putpixel p.1 p.2 (f p.1 p.2)) img).getpixel x y
        = if (x, y) ∈ l then f x y else img.getpixel x y := by
  intro l
  induction l with
  | nil => intro img x y; simp
  | cons p t ih =>
    intro img x y
    rw [List.foldl_cons, ih]
    by_cases hmem : (x, y) ∈ t
    · simp [hmem]
    · by_cases hp : p = (x, y)
      · subst hp
        simp [hmem, Image.putpixel, Image.getpixel]
      · have hnc : ¬ (x, y) ∈ p :: t := by
          rw [List.mem_cons]
          rintro (hc | hc)
          · exact hp hc.symm
          · exact hmem hc
        rw [if_neg hmem, if_neg hnc, Image.putpixel, Image.getpixel,
          Image.getpixel]
        simp only []
        rw [if_neg]
        rintro ⟨h1, h2⟩
        exact hp (Prod.ext h1.symm h2.symm)

theorem foldl_putpixel_width (f : ℕ → ℕ → Color) :
    ∀ (l : List (ℕ × ℕ)) (img : Image),
      (l.foldl (fun im p => im.putpixel p.1 p.2 (f p.1 p.2)) img).width
        = img.width := by
  intro l
  induction l with
  | nil => intro img; rfl
  | cons p t ih => intro img; rw [List.foldl_cons, ih]; rfl

theorem foldl_putpixel_height (f : ℕ → ℕ → Color) :
    ∀ (l : List (ℕ × ℕ)) (img : Image),
      (l.foldl (fun im p => im.putpixel p.1 p.2 (f p.1 p.2)) img).height
        = img.height := by
  intro l
  induction l with
  | nil => intro img; rfl
  | cons p t ih => intro img; rw [List.foldl_cons, ih]; rfl

theorem paint_getpixel (m : MandelbrotSet) (vp : Viewport)
    (palette : List Color) (smooth : Bool) (x y : ℕ)
    (hx : x < vp.image.width) (hy : y < vp.image.height) :
    (paint m vp palette smooth).getpixel x y
      = pixelColor m vp palette smooth x y := by
  rw [paint, foldl_putpixel_getpixel, if_pos]
  exact (rowMajor_mem _ _ _).mpr ⟨hx, hy⟩

theorem paint_getpixel_outside (m : MandelbrotSet) (vp : Viewport)
    (palette : List Color) (smooth : Bool) (x y : ℕ)
    (h : ¬ (x < vp.image.width ∧ y < vp.image.height)) :
    (paint m vp palette smooth).getpixel x y = vp.image.getpixel x y := by
  rw [paint, foldl_putpixel_getpixel, if_neg]
  intro hmem
  exact h ((rowMajor_mem _ _ _).mp hmem)

theorem Cplx.add_def (a b : Cplx) :
    a + b = ⟨a.re + b.re, a.im + b.im⟩ := rfl

theorem Cplx.mul_def (a b : Cplx) :
    a * b = ⟨a.re * b.re - a.im * b.im, a.re * b.im + a.im * b.re⟩ := rfl

theorem zero_sq_add (c : Cplx) : (⟨0, 0⟩ : Cplx) * ⟨0, 0⟩ + c = c := by
  cases c
  simp [Cplx.mul_def, Cplx.add_def]

theorem absGT_zero_eq_false (r : ℚ) (h : 0 < r) :
    absGT ⟨0, 0⟩ r = false := by
  rw [absGT]
  have h1 : ¬ r < 0 := not_lt.mpr (le_of_lt h)
  have h2 : ¬ r ^ 2 < Cplx.normSq ⟨0, 0⟩ := by
    rw [Cplx.normSq]
    norm_num
    exact sq_nonneg r
  simp [h1, h2]

theorem escapeGo_zero (m : MandelbrotSet) (h : 0 < m.escape_radius) :
    ∀ (fuel iteration : ℕ),
      m.escapeGo ⟨0, 0⟩ ⟨0, 0⟩ iteration fuel = none := by
  intro fuel
  induction fuel with
  | zero => intro iteration; rfl
  | succ fuel ih =>
    intro iteration
    rw [MandelbrotSet.escapeGo]
    simp [zero_sq_add, absGT_zero_eq_false m.escape_radius h]
    exact ih (iteration + 1)

/-- C6: for every engine with `max_iterations ≥ 1` and `escape_radius > 0`,
the unsmoothed escape count of `c = 0` is exactly `max_iterations`: the
orbit of 0 stays at 0 forever, so the loop completes its full budget. -/
theorem escape_count_zero_eq_max (m : MandelbrotSet)
    (_h1 : 1 ≤ m.max_iterations) (h2 : 0 < m.escape_radius) :
    m.escape_count ⟨0, 0⟩ = m.max_iterations := by
  rw [MandelbrotSet.escape_count, MandelbrotSet.escapeData,
    escapeGo_zero m h2 m.max_iterations 0]

/-- Witness for C6 at the spec's concrete scenario: `max_iterations = 50`,
`escape_radius = 2`, `escape_count(0) = 50`. -/
theorem escape_count_zero_eq_max_witness :
    1 ≤ (MandelbrotSet.mk 50 2).max_iterations ∧
    0 < (MandelbrotSet.mk 50 2).escape_radius ∧
    (MandelbrotSet.mk 50 2).escape_count ⟨0, 0⟩ = 50 :=
  ⟨by decide, by decide,
    escape_count_zero_eq_max (MandelbrotSet.mk 50 2) (by decide) (by decide)⟩

/-- C7: for every engine with `max_iterations ≥ 1` and every `c` with
`|c| > escape_radius`, the unsmoothed escape count is 0 — the first
computed iterate `z₁ = c` already exceeds the radius — and in particular
is strictly less than `max_iterations`. -/
theorem escape_count_far_eq_zero (m : MandelbrotSet) (c : Cplx)
    (h1 : 1 ≤ m.max_iterations) (h2 : (m.escape_radius : ℝ) < cabs c) :
    m.escape_count c = 0 ∧ m.escape_count c < m.max_iterations := by
  have hb : absGT c m.escape_radius = true := (absGT_eq_true_iff c _).mpr h2
  have h0 : m.escape_count c = 0 := by
    rw [MandelbrotSet.escape_count]
    have hdata : m.escapeData c = some (0, c) := by
      rw [MandelbrotSet.escapeData]
      obtain ⟨n, hn⟩ : ∃ n, m.max_iterations = n + 1 :=
        ⟨m.max_iterations - 1, by omega⟩
      rw [hn, MandelbrotSet.escapeGo]
      simp [zero_sq_add, hb]
    rw [hdata]
  exact ⟨h0, by rw [h0]; omega⟩

/-- Witness for C7 at the spec's concrete scenario: `max_iterations = 50`,
`escape_radius = 2`, `c = 2 + 2i` with `|c| = √8 > 2`, escape count 0. -/
theorem escape_count_far_eq_zero_witness :
    1 ≤ (MandelbrotSet.mk 50 2).max_iterations ∧
    ((MandelbrotSet.mk 50 2).escape_radius : ℝ) < cabs ⟨2, 2⟩ ∧
    (MandelbrotSet.mk 50 2).escape_count ⟨2, 2⟩ = 0 ∧
    (MandelbrotSet.mk 50 2).escape_count ⟨2, 2⟩ < 50 := by
  have hcabs : ((MandelbrotSet.mk 50 2).escape_radius : ℝ) < cabs ⟨2, 2⟩ := by
    have hn : ((Cplx.normSq ⟨2, 2⟩ : ℚ) : ℝ) = 8 := by
      norm_num [Cplx.normSq]
    rw [cabs, hn]
    have : ((MandelbrotSet.mk 50 2).escape_radius : ℝ) = 2 := by norm_num
    rw [this]
    refine (Real.lt_sqrt (by norm_num)).mpr (by norm_num)
  have h := escape_count_far_eq_zero (MandelbrotSet.mk 50 2) ⟨2, 2⟩
    (by decide) hcabs
  exact ⟨by decide, hcabs, h.1, h.2⟩

/-- C5: with `escape_radius > 1`, whenever the escape loop detects
divergence the detected iterate `z` satisfies `log |z| > 0`, so the smooth
branch's expression `log(log|z|)` is well-defined (its inner logarithm is
strictly positive). -/
theorem smooth_log_argument_pos (m : MandelbrotSet) (c : Cplx) (n : ℕ)
    (z : Cplx) (h1 : 1 < m.escape_radius)
    (hd : m.escapeData c = some (n, z)) :
    0 < Real.log (cabs z) := by
  have hb : absGT z m.escape_radius = true :=
    escapeGo_some_absGT m c m.max_iterations ⟨0, 0⟩ 0 n z hd
  have hlt : (m.escape_radius : ℝ) < cabs z := (absGT_eq_true_iff _ _).mp hb
  have h1R : (1 : ℝ) < (m.escape_radius : ℝ) := by exact_mod_cast h1
  exact Real.log_pos (lt_trans h1R hlt)

/-- Witness for C5: engine with budget 5 and radius 2 on `c = 3` detects
divergence at iteration 0 with iterate `z = 3`, and `log |z| > 0`. -/
theorem smooth_log_argument_pos_witness :
    1 < (MandelbrotSet.mk 5 2).escape_radius ∧
    (MandelbrotSet.mk 5 2).escapeData ⟨3, 0⟩ = some (0, ⟨3, 0⟩) ∧
    0 < Real.log (cabs ⟨3, 0⟩) := by
  have hdata : (MandelbrotSet.mk 5 2).escapeData ⟨3, 0⟩ = some (0, ⟨3, 0⟩) := by
    norm_num [MandelbrotSet.escapeData, MandelbrotSet.escapeGo, absGT,
      Cplx.normSq, Cplx.mul_def, Cplx.add_def]
  exact ⟨by decide, hdata,
    smooth_log_argument_pos (MandelbrotSet.mk 5 2) ⟨3, 0⟩ 0 ⟨3, 0⟩
      (by decide) hdata⟩

/-- C1: for every engine with `max_iterations ≥ 1` and `escape_radius > 0`,
the membership test `c in MandelbrotSet` — `stability(c) == 1` with the
default `smooth=False`, `clamp=True` — holds iff the unsmoothed escape
count equals `max_iterations`. -/
theorem contains_iff_escape_count_eq_max (m : MandelbrotSet) (c : Cplx)
    (h1 : 1 ≤ m.max_iterations) (_h2 : 0 < m.escape_radius) :
    m.contains c ↔ m.escape_count c = m.max_iterations := by
  rw [MandelbrotSet.contains, MandelbrotSet.stability]
  simp only [escape_countR_false, if_true]
  have hMpos : (0 : ℝ) < (m.max_iterations : ℝ) := by
    exact_mod_cast Nat.lt_of_lt_of_le Nat.zero_lt_one h1
  have hv0 : 0 ≤ (m.escape_count c : ℝ) / (m.max_iterations : ℝ) :=
    div_nonneg (Nat.cast_nonneg _) (le_of_lt hMpos)
  have hv1 : (m.escape_count c : ℝ) / (m.max_iterations : ℝ) ≤ 1 :=
    (div_le_one hMpos).mpr (by exact_mod_cast escape_count_le m c)
  rw [min_eq_left hv1, max_eq_right hv0,
    div_eq_one_iff_eq (ne_of_gt hMpos)]
  exact Nat.cast_inj

/-- Witness for C1: a concrete engine with budget 2 and radius 2, at
`c = 0`, satisfies the hypotheses and the equivalence. -/
theorem contains_iff_escape_count_eq_max_witness :
    (1 ≤ (MandelbrotSet.mk 2 2).max_iterations ∧
      0 < (MandelbrotSet.mk 2 2).escape_radius) ∧
    ((MandelbrotSet.mk 2 2).contains ⟨0, 0⟩ ↔
      (MandelbrotSet.mk 2 2).escape_count ⟨0, 0⟩ = 2) :=
  ⟨⟨by decide, by decide⟩,
    contains_iff_escape_count_eq_max (MandelbrotSet.mk 2 2) ⟨0, 0⟩
      (by decide) (by decide)⟩

theorem Cplx.mulQ_def (a : Cplx) (q : ℚ) :
    a * q = ⟨a.re * q, a.im * q⟩ := rfl

theorem Cplx.divQ_def (a : Cplx) (q : ℚ) :
    a / q = ⟨a.re / q, a.im / q⟩ := rfl

/-- C4: for every viewport, pixel `(x, y)` converts to
`complex(x, -y) * scale + offset` with `scale = width / image_width` and
`offset = center + complex(-width, scale * image_height) / 2`. -/
theorem pixelToC_formula (vp : Viewport) (x y : ℕ)
    (_hw : 1 ≤ vp.image.width) (_hh : 1 ≤ vp.image.height) :
    vp.pixelToC x y
      = (⟨(x : ℚ), -(y : ℚ)⟩ : Cplx) * (vp.width / (vp.image.width : ℚ))
        + (vp.center
            + (⟨-vp.width,
                (vp.width / (vp.image.width : ℚ)) * (vp.image.height : ℚ)⟩ :
              Cplx) / (2 : ℚ)) := rfl

/-- Witness for C4 at the spec's concrete scenario: 4 by 4 image, centre 0,
width 4, so pixel (0,0) maps to -2 + 2i and pixel (3,3) maps to 1 - i. -/
theorem pixelToC_formula_witness :
    vp4.pixelToC 0 0 = ⟨-2, 2⟩ ∧ vp4.pixelToC 3 3 = ⟨1, -1⟩ := by
  constructor
  · rw [pixelToC_formula vp4 0 0 (by decide) (by decide)]
    norm_num [vp4, Cplx.mulQ_def, Cplx.divQ_def, Cplx.add_def]
  · rw [pixelToC_formula vp4 3 3 (by decide) (by decide)]
    norm_num [vp4, Cplx.mulQ_def, Cplx.divQ_def, Cplx.add_def]

/-- C8: the pixel sequence of a viewport has exactly `width * height`
entries, the entry at position `y * width + x` is `(x, y)` (row-major
order: outer loop over rows, inner over columns), no pair occurs twice,
and the members are exactly the in-range coordinate pairs. -/
theorem pixels_row_major (vp : Viewport) :
    vp.pixels.length = vp.image.width * vp.image.height ∧
    (∀ x y : ℕ, x < vp.image.width → y < vp.image.height →
      vp.pixels[y * vp.image.width + x]? = some (x, y)) ∧
    vp.pixels.Nodup ∧
    (∀ p : ℕ × ℕ, p ∈ vp.pixels ↔
      p.1 < vp.image.width ∧ p.2 < vp.image.height) := by
  refine ⟨rowMajor_length _ _, ?_, rowMajor_nodup _ _,
    fun p => rowMajor_mem _ _ p⟩
  intro x y hx hy
  exact rowMajor_getElem _ _ x y hx hy

/-- Witness for C8: the 2 by 2 viewport yields exactly
[(0,0), (1,0), (0,1), (1,1)], and position 1*2+0 holds (0, 1). -/
theorem pixels_row_major_witness :
    vp22.pixels = [(0, 0), (1, 0), (0, 1), (1, 1)] ∧
    vp22.pixels[1 * 2 + 0]? = some (0, 1) ∧ vp22.pixels.Nodup :=
  ⟨by decide, (pixels_row_major vp22).2.1 0 1 (by decide) (by decide),
    (pixels_row_major vp22).2.2.1⟩

/-- C10: for a positive palette length, the band index
`count // 8 % len` computed by `paint` (see `bandIndex` and `pixelColor`)
lies in `[0, len)` even for negative counts, so the palette lookup is in
bounds. -/
theorem bandIndex_in_bounds (count : ℤ) (len : ℕ) (h : 0 < len) :
    0 ≤ bandIndex count len ∧ bandIndex count len < (len : ℤ) ∧
    (bandIndex count len).toNat < len := by
  rw [bandIndex]
  have hne : (len : ℤ) ≠ 0 := by
    exact_mod_cast Nat.pos_iff_ne_zero.mp h
  have h0 : 0 ≤ (count.fdiv 8).emod (len : ℤ) := Int.emod_nonneg _ hne
  have h1 : (count.fdiv 8).emod (len : ℤ) < (len : ℤ) :=
    Int.emod_lt_of_pos _ (by exact_mod_cast h)
  exact ⟨h0, h1, by omega⟩

/-- Witness for C10 at a negative truncated count: `bandIndex (-20) 16`
is in `[0, 16)`. -/
theorem bandIndex_in_bounds_witness :
    0 < 16 ∧ 0 ≤ bandIndex (-20) 16 ∧ bandIndex (-20) 16 < (16 : ℤ) ∧
    (bandIndex (-20) 16).toNat < 16 :=
  ⟨by decide, (bandIndex_in_bounds (-20) 16 (by decide)).1,
    (bandIndex_in_bounds (-20) 16 (by decide)).2.1,
    (bandIndex_in_bounds (-20) 16 (by decide)).2.2⟩

/-- C2 counterexample: the constructors validate nothing. An engine built
with `max_iterations = 0` and `escape_radius = -1`, and a viewport built
with a 0 by 0 image and width -1, are constructed successfully, keep their
invalid parameters, and the engine even operates (`escape_count`
immediately returns its budget 0). -/
theorem construction_accepts_invalid :
    (MandelbrotSet.mk 0 (-1)).max_iterations = 0 ∧
    (MandelbrotSet.mk 0 (-1)).escape_radius = -1 ∧
    (MandelbrotSet.mk 0 (-1)).escape_count ⟨1, 1⟩ = 0 ∧
    (Viewport.mk ⟨0, 0, fun _ _ => (0, 0, 0)⟩ ⟨0, 0⟩ (-1)).width = -1 :=
  ⟨rfl, rfl, rfl, rfl⟩

/-- C2 amended: construction performs no validation — the dataclass
constructors accept arbitrary parameters and store them unchanged, and an
invalid configuration is only observable in use: an engine with
`max_iterations = 0` reports escape count 0 for every point. -/
theorem construction_no_validation (budget : ℕ) (radius : ℚ) (c : Cplx) :
    (MandelbrotSet.mk budget radius).max_iterations = budget ∧
    (MandelbrotSet.mk budget radius).escape_radius = radius ∧
    (MandelbrotSet.mk 0 radius).escape_count c = 0 :=
  ⟨rfl, rfl, rfl⟩

/-- C9: `paint` leaves the engine parameters, the viewport's centre and
width, the palette, the image dimensions, and every out-of-range pixel
unchanged: only in-range pixels of the image surface are written. -/
theorem paint_frame (w : World) (smooth : Bool) :
    (paintWorld w smooth).engine = w.engine ∧
    (paintWorld w smooth).viewport.center = w.viewport.center ∧
    (paintWorld w smooth).viewport.width = w.viewport.width ∧
    (paintWorld w smooth).palette = w.palette ∧
    (paintWorld w smooth).viewport.image.width = w.viewport.image.width ∧
    (paintWorld w smooth).viewport.image.height = w.viewport.image.height ∧
    (∀ x y : ℕ,
      ¬ (x < w.viewport.image.width ∧ y < w.viewport.image.height) →
      (paintWorld w smooth).viewport.image.getpixel x y
        = w.viewport.image.getpixel x y) := by
  refine ⟨rfl, rfl, rfl, rfl, ?_, ?_, ?_⟩
  · exact foldl_putpixel_width _ _ _
  · exact foldl_putpixel_height _ _ _
  · intro x y h
    exact paint_getpixel_outside _ _ _ _ x y h

/-- Witness for C9: on a concrete world with a 1 by 1 image, painting
preserves the engine and the out-of-range pixel (5, 5). -/
theorem paint_frame_witness :
    (paintWorld W0 false).engine = MandelbrotSet.mk 1 2 ∧
    (paintWorld W0 false).viewport.image.getpixel 5 5
      = W0.viewport.image.getpixel 5 5 :=
  ⟨(paint_frame W0 false).1,
    (paint_frame W0 false).2.2.2.2.2.2 5 5 (by decide)⟩

theorem vpTen_pixelToC : vpTen.pixelToC 0 0 = ⟨10, 0⟩ := by
  norm_num [Viewport.pixelToC, Viewport.scale, Viewport.offset,
    Viewport.height, vpTen, Cplx.mulQ_def, Cplx.divQ_def, Cplx.add_def]

theorem mTen_escapeData : mTen.escapeData ⟨10, 0⟩ = some (0, ⟨10, 0⟩) := by
  norm_num [mTen, MandelbrotSet.escapeData, MandelbrotSet.escapeGo, absGT,
    Cplx.normSq, Cplx.mul_def, Cplx.add_def]

theorem cabs_ten : cabs ⟨10, 0⟩ = 10 := by
  rw [cabs]
  have h : ((Cplx.normSq ⟨10, 0⟩ : ℚ) : ℝ) = 10 ^ 2 := by
    norm_num [Cplx.normSq]
  rw [h, Real.sqrt_sq (by norm_num)]

theorem smooth_count_ten :
    mTen.escape_countR ⟨10, 0⟩ true
      = 1 - Real.log (Real.log 10) / Real.log 2 := by
  rw [MandelbrotSet.escape_countR, mTen_escapeData]
  simp [cabs_ten]

theorem log_log_ten_bounds :
    Real.log 2 < Real.log (Real.log 10) ∧
    Real.log (Real.log 10) < 2 * Real.log 2 := by
  have h10 : (0 : ℝ) < 10 := by norm_num
  have hlog10_gt : (2 : ℝ) < Real.log 10 := by
    rw [Real.lt_log_iff_exp_lt h10]
    have he : Real.exp 2 = Real.exp 1 * Real.exp 1 := by
      rw [← Real.exp_add]; norm_num
    nlinarith [Real.exp_one_lt_d9, Real.exp_pos 1]
  have hlog10_lt : Real.log 10 < 4 := by
    rw [Real.log_lt_iff_lt_exp h10]
    have he : Real.exp 4 = Real.exp 1 ^ 4 := by
      rw [← Real.exp_nat_mul]; norm_num
    have h2e : (2 : ℝ) < Real.exp 1 := by nlinarith [Real.exp_one_gt_d9]
    have hp : (2 : ℝ) ^ 4 < Real.exp 1 ^ 4 :=
      pow_lt_pow_left₀ h2e (by norm_num) (by norm_num)
    rw [he]
    nlinarith [hp]
  constructor
  · exact Real.log_lt_log (by norm_num) hlog10_gt
  · have h4 : (2 : ℝ) * Real.log 2 = Real.log 4 := by
      rw [show (4 : ℝ) = 2 ^ 2 by norm_num, Real.log_pow]
      norm_num
    rw [h4]
    exact Real.log_lt_log (by linarith) hlog10_lt

theorem count_ten_bounds :
    -1 < mTen.escape_countR ⟨10, 0⟩ true ∧
    mTen.escape_countR ⟨10, 0⟩ true < 0 := by
  rw [smooth_count_ten]
  have hl2 : 0 < Real.log 2 := Real.log_pos (by norm_num)
  obtain ⟨hlo, hhi⟩ := log_log_ten_bounds
  constructor
  · have h : Real.log (Real.log 10) / Real.log 2 < 2 := by
      rw [div_lt_iff₀ hl2]; linarith
    linarith
  · have h : 1 < Real.log (Real.log 10) / Real.log 2 := by
      rw [lt_div_iff₀ hl2]; linarith
    linarith

theorem pytrunc_count_ten :
    pytrunc (mTen.escape_countR ⟨10, 0⟩ true) = 0 := by
  obtain ⟨h1, h2⟩ := count_ten_bounds
  rw [pytrunc, if_pos h2]
  have hfl : Int.floor (-(mTen.escape_countR ⟨10, 0⟩ true)) = 0 := by
    rw [Int.floor_eq_zero_iff]
    constructor
    · linarith
    · linarith
  rw [hfl]
  norm_num

theorem floor_count_ten :
    Int.floor (mTen.escape_countR ⟨10, 0⟩ true) = -1 := by
  obtain ⟨h1, h2⟩ := count_ten_bounds
  rw [Int.floor_eq_iff]
  constructor
  · push_cast; linarith
  · push_cast; linarith

/-- C3 amended: the colour `paint` writes at every in-range pixel is
`palette[int(count) // 8 % len(palette)]`, where `int()` truncates toward
zero (`pytrunc`); when `smooth` is off the count is a natural number, so
truncation agrees with the spec's floor and the floor formula also holds.
(For reachable negative smooth counts the two disagree — see the
counterexample.) -/
theorem paint_color_trunc_band (m : MandelbrotSet) (vp : Viewport)
    (palette : List Color) (smooth : Bool) (x y : ℕ)
    (hx : x < vp.image.width) (hy : y < vp.image.height) :
    (paint m vp palette smooth).getpixel x y
      = palette.getD
          (bandIndex (pytrunc (m.escape_countR (vp.pixelToC x y) smooth))
            palette.length).toNat (0, 0, 0) ∧
    (smooth = false →
      (paint m vp palette smooth).getpixel x y
        = palette.getD
            (bandIndex (Int.floor (m.escape_countR (vp.pixelToC x y) smooth))
              palette.length).toNat (0, 0, 0)) := by
  have h1 := paint_getpixel m vp palette smooth x y hx hy
  rw [pixelColor] at h1
  refine ⟨h1, ?_⟩
  intro hs
  subst hs
  have htr : pytrunc (m.escape_countR (vp.pixelToC x y) false)
      = Int.floor (m.escape_countR (vp.pixelToC x y) false) := by
    rw [escape_countR_false, pytrunc, if_neg]
    exact not_lt.mpr (Nat.cast_nonneg _)
  rw [htr] at h1
  exact h1

/-- Witness for C3 (amended): with the concrete 1 by 1 viewport whose
pixel maps to `c = 10`, budget 1, radius 2, unsmoothed rendering paints
palette colour 0, and a count of 130 with a 16-colour palette lands in
band 0. -/
theorem paint_color_trunc_band_witness :
    (paint mTen vpTen pal16 false).getpixel 0 0 = (0, 0, 0) ∧
    bandIndex 130 16 = 0 := by
  constructor
  · have h := (paint_color_trunc_band mTen vpTen pal16 false 0 0
      (by decide) (by decide)).1
    rw [h, vpTen_pixelToC, escape_countR_false]
    have hcount : mTen.escape_count ⟨10, 0⟩ = 0 := by
      rw [MandelbrotSet.escape_count, mTen_escapeData]
    rw [hcount]
    have htr : pytrunc ((0 : ℕ) : ℝ) = 0 := by
      rw [pytrunc, if_neg (by norm_num)]
      norm_num
    rw [htr]
    decide
  · decide

/-- C3 counterexample: at the pixel mapping to `c = 10` with radius 2 and
`smooth=True`, the smooth count lies in (-1, 0); Python `int()` truncates
it to 0 (palette band 0) while the spec's floor gives -1 (palette band
15), so the painted colour differs from the spec's
`palette[floor(count) // 8 % len]`. -/
theorem paint_color_floor_mismatch :
    (paint mTen vpTen pal16 true).getpixel 0 0
      ≠ pal16.getD
          (bandIndex
            (Int.floor (mTen.escape_countR (vpTen.pixelToC 0 0) true))
            pal16.length).toNat (0, 0, 0) := by
  have h := paint_getpixel mTen vpTen pal16 true 0 0 (by decide) (by decide)
  rw [pixelColor] at h
  rw [h, vpTen_pixelToC, pytrunc_count_ten, floor_count_ten]
  decide
